import Mathlib

/-!
Verification of the Freivalds-algorithm core of this repository.

The source notebook defines three pieces of Python/NumPy code:

* `is_correct_mult(A, B, C, k=1)` — Freivalds' randomized check that `A·B = C`:
  `n = A.shape[0]`; for each of `range(k)` iterations it draws
  `X = np.random.randint(0, 2, (n,))`, computes `res = A @ (B @ X) - (C @ X)`
  and returns `False` as soon as `res.any()` holds; if no iteration fires it
  returns `True`.
* `make_test(n)` — draws random `A`, `B`, computes `correct = A @ B`, copies it
  to `incorrect`, draws `i, j = np.random.randint(0, n, 2)` and adds
  `np.random.random()` to `incorrect[i, j]`, returning `(A, B, incorrect)`.
* the experiment driver — for `n` in `range(lo, hi+1)` it runs `10_000` trials,
  each generating one instance by `make_test(n)` and calling `is_correct_mult`
  on it once with `k=1` and once with `k=2`, counting `False` returns.

We embed these shallowly.  Matrix entries are modelled by `ℚ` (exact
arithmetic; the NumPy code uses floats).  Randomness is modelled by passing the
drawn data explicitly: the verifier receives the stream `Xs : ℕ → Fin n → ℚ`
of vectors it would draw, and `make_test` receives the drawn matrices, cell
indices and perturbation.  A second, shape-indexed model (`PyMat`) captures
NumPy's shape and broadcasting rules for the error-handling claims.
-/

namespace Freivalds

/-- The residual vector `A @ (B @ X) - (C @ X)` computed by one iteration of
`is_correct_mult` (line `res = A @ (B @ X) - (C @ X)` of the source). -/
def residual {n : ℕ} (A B C : Matrix (Fin n) (Fin n) ℚ) (X : Fin n → ℚ) :
    Fin n → ℚ :=
  A.mulVec (B.mulVec X) - C.mulVec X

/-- NumPy `res.any()` on a 1-D array: true iff some entry is nonzero. -/
def resAny {n : ℕ} (v : Fin n → ℚ) : Bool :=
  decide (∃ i, v i ≠ 0)

/-- The loop `for _ in range(k)` of `is_correct_mult`, with the draw stream
`Xs` indexed by a counter `t` of how many vectors have been drawn so far.
Returns the boolean verdict together with the total number of vectors drawn
when the function returns. -/
def freivaldsLoop {n : ℕ} (A B C : Matrix (Fin n) (Fin n) ℚ)
    (Xs : ℕ → Fin n → ℚ) : ℕ → ℕ → Bool × ℕ
  | t, 0 => (true, t)
  | t, k + 1 =>
    if resAny (residual A B C (Xs t)) then (false, t + 1)
    else freivaldsLoop A B C Xs (t + 1) k

/-- Embedding of `is_correct_mult(A, B, C, k)` on well-shaped (all `n×n`) inputs.  The
Python `k` is an arbitrary `int`; `range(k)` iterates `max k 0` times, which is
`k.toNat`.  `Xs t` is the vector drawn by the `t`-th execution of
`X = np.random.randint(0, 2, (n,))`. -/
def is_correct_mult {n : ℕ} (A B C : Matrix (Fin n) (Fin n) ℚ) (k : ℤ)
    (Xs : ℕ → Fin n → ℚ) : Bool :=
  (freivaldsLoop A B C Xs 0 k.toNat).1

/-- Number of random vectors `X` the call `is_correct_mult(A, B, C, k)` draws
before returning. -/
def drawsUsed {n : ℕ} (A B C : Matrix (Fin n) (Fin n) ℚ) (k : ℤ)
    (Xs : ℕ → Fin n → ℚ) : ℕ :=
  (freivaldsLoop A B C Xs 0 k.toNat).2

/-- Modelled from the spec's words for the refinement claim: the naive
residual `(A·B)·X − C·X` formed from the full product `A·B`. -/
def naiveResidual {n : ℕ} (A B C : Matrix (Fin n) (Fin n) ℚ) (X : Fin n → ℚ) :
    Fin n → ℚ :=
  (A * B).mulVec X - C.mulVec X

theorem residual_eq_naive {n : ℕ} (A B C : Matrix (Fin n) (Fin n) ℚ)
    (X : Fin n → ℚ) : residual A B C X = naiveResidual A B C X := by
  unfold residual naiveResidual
  rw [Matrix.mulVec_mulVec]

theorem residual_eq_sub_mulVec {n : ℕ} (A B C : Matrix (Fin n) (Fin n) ℚ)
    (X : Fin n → ℚ) : residual A B C X = (A * B - C).mulVec X := by
  rw [residual_eq_naive, naiveResidual, Matrix.sub_mulVec]

/-- C10: the residual `A·(B·X) − C·X` the verifier computes equals the naive
residual `(A·B)·X − C·X`, equals `(A·B − C)·X`, and therefore decides the very
same zero/nonzero predicate as the naive residual. -/
theorem residual_equivalence {n : ℕ} (A B C : Matrix (Fin n) (Fin n) ℚ)
    (X : Fin n → ℚ) :
    residual A B C X = naiveResidual A B C X ∧
    residual A B C X = (A * B - C).mulVec X ∧
    resAny (residual A B C X) = resAny (naiveResidual A B C X) := by
  refine ⟨residual_eq_naive A B C X, residual_eq_sub_mulVec A B C X, ?_⟩
  rw [residual_eq_naive]

theorem resAny_zero {n : ℕ} : resAny (0 : Fin n → ℚ) = false := by
  simp [resAny]

theorem freivaldsLoop_of_all_zero {n : ℕ} (A B C : Matrix (Fin n) (Fin n) ℚ)
    (Xs : ℕ → Fin n → ℚ) (k t : ℕ)
    (h : ∀ d, d < k → residual A B C (Xs (t + d)) = 0) :
    freivaldsLoop A B C Xs t k = (true, t + k) := by
  induction k generalizing t with
  | zero => simp [freivaldsLoop]
  | succ m ih =>
    have h0 : residual A B C (Xs t) = 0 := by
      have := h 0 (Nat.succ_pos m)
      simpa using this
    have hrest : ∀ d, d < m → residual A B C (Xs (t + 1 + d)) = 0 := by
      intro d hd
      have := h (d + 1) (by omega)
      simpa [Nat.add_assoc, Nat.add_comm 1 d] using this
    simp only [freivaldsLoop, h0, resAny_zero, if_neg (Bool.false_ne_true)]
    rw [ih (t + 1) hrest]
    have harith : t + 1 + m = t + (m + 1) := by omega
    rw [harith]

/-- C1: one-sided soundness.  If `C = A·B` exactly then for every `n ≥ 1`,
every `k ≥ 1` and every stream of drawn `{0,1}`-vectors, `is_correct_mult`
returns `True`. -/
theorem freivalds_one_sided_soundness {n : ℕ} (k : ℤ)
    (A B C : Matrix (Fin n) (Fin n) ℚ) (Xs : ℕ → Fin n → ℚ)
    (_hn : 1 ≤ n) (_hk : 1 ≤ k) (hC : C = A * B)
    (_hX : ∀ t i, Xs t i = 0 ∨ Xs t i = 1) :
    is_correct_mult A B C k Xs = true := by
  have hz : ∀ d, d < k.toNat → residual A B C (Xs (0 + d)) = 0 := by
    intro d _
    rw [residual_eq_sub_mulVec, hC]
    simp [Matrix.zero_mulVec]
  unfold is_correct_mult
  rw [freivaldsLoop_of_all_zero A B C Xs k.toNat 0 hz]

/-- Concrete instantiation of C1: `n = 1`, `A = B = C = 1`, `k = 1`, all draws
the zero vector. -/
theorem freivalds_one_sided_soundness_witness :
    is_correct_mult (n := 1) 1 1 1 1 (fun _ _ => 0) = true :=
  freivalds_one_sided_soundness 1 1 1 1 (fun _ _ => 0)
    (by decide) (by decide) (one_mul 1).symm (fun _ _ => Or.inl rfl)

theorem resAny_eq_false {n : ℕ} (v : Fin n → ℚ) : resAny v = false ↔ v = 0 := by
  simp [resAny, funext_iff]

theorem resAny_eq_true {n : ℕ} (v : Fin n → ℚ) : resAny v = true ↔ v ≠ 0 := by
  simp [resAny, funext_iff]

theorem freivaldsLoop_fst_true_iff {n : ℕ} (A B C : Matrix (Fin n) (Fin n) ℚ)
    (Xs : ℕ → Fin n → ℚ) (k t : ℕ) :
    (freivaldsLoop A B C Xs t k).1 = true ↔
      ∀ d, d < k → residual A B C (Xs (t + d)) = 0 := by
  induction k generalizing t with
  | zero => simp [freivaldsLoop]
  | succ m ih =>
    by_cases h0 : residual A B C (Xs t) = 0
    · rw [show freivaldsLoop A B C Xs t (m + 1)
            = freivaldsLoop A B C Xs (t + 1) m by
          simp [freivaldsLoop, (resAny_eq_false _).2 h0]]
      rw [ih (t + 1)]
      constructor
      · intro hall d hd
        match d with
        | 0 => simpa using h0
        | e + 1 =>
          have := hall e (by omega)
          simpa [Nat.add_assoc, Nat.add_comm 1 e] using this
      · intro hall e he
        have := hall (e + 1) (by omega)
        simpa [Nat.add_assoc, Nat.add_comm 1 e] using this
    · rw [show freivaldsLoop A B C Xs t (m + 1) = (false, t + 1) by
          simp [freivaldsLoop, (resAny_eq_true _).2 h0]]
      simp only [Bool.false_eq_true, false_iff]
      intro hall
      exact h0 (by simpa using hall 0 (Nat.succ_pos m))

theorem freivaldsLoop_first_fail {n : ℕ} (A B C : Matrix (Fin n) (Fin n) ℚ)
    (Xs : ℕ → Fin n → ℚ) (k t d : ℕ) (hd : d < k)
    (hfail : residual A B C (Xs (t + d)) ≠ 0)
    (hprev : ∀ e, e < d → residual A B C (Xs (t + e)) = 0) :
    freivaldsLoop A B C Xs t k = (false, t + d + 1) := by
  induction k generalizing t d with
  | zero => omega
  | succ m ih =>
    match d with
    | 0 =>
      have h0 : residual A B C (Xs t) ≠ 0 := by simpa using hfail
      simp [freivaldsLoop, (resAny_eq_true _).2 h0]
    | e + 1 =>
      have h0 : residual A B C (Xs t) = 0 := by
        simpa using hprev 0 (Nat.succ_pos e)
      rw [show freivaldsLoop A B C Xs t (m + 1)
            = freivaldsLoop A B C Xs (t + 1) m by
          simp [freivaldsLoop, (resAny_eq_false _).2 h0]]
      have hfail' : residual A B C (Xs (t + 1 + e)) ≠ 0 := by
        simpa [Nat.add_assoc, Nat.add_comm 1 e] using hfail
      have hprev' : ∀ f, f < e → residual A B C (Xs (t + 1 + f)) = 0 := by
        intro f hf
        have := hprev (f + 1) (by omega)
        simpa [Nat.add_assoc, Nat.add_comm 1 f] using this
      rw [ih (t + 1) e (by omega) hfail' hprev']
      have harith : t + 1 + e + 1 = t + (e + 1) + 1 := by omega
      rw [harith]

/-- C3: iteration and early-exit semantics.  `is_correct_mult` returns `False`
exactly when some of the first `k` residuals has a nonzero entry; at the first
such index `i` it returns after having drawn exactly `i + 1` vectors; it
returns `True` exactly when all `k` residuals are zero, in which case all `k`
vectors were drawn. -/
theorem is_correct_mult_iteration_spec {n : ℕ} (k : ℤ)
    (A B C : Matrix (Fin n) (Fin n) ℚ) (Xs : ℕ → Fin n → ℚ) (_hk : 1 ≤ k) :
    (is_correct_mult A B C k Xs = false ↔
      ∃ i, i < k.toNat ∧ residual A B C (Xs i) ≠ 0) ∧
    (is_correct_mult A B C k Xs = true ↔
      ∀ i, i < k.toNat → residual A B C (Xs i) = 0) ∧
    (∀ i, i < k.toNat → residual A B C (Xs i) ≠ 0 →
      (∀ j, j < i → residual A B C (Xs j) = 0) →
      is_correct_mult A B C k Xs = false ∧ drawsUsed A B C k Xs = i + 1) ∧
    ((∀ i, i < k.toNat → residual A B C (Xs i) = 0) →
      is_correct_mult A B C k Xs = true ∧ drawsUsed A B C k Xs = k.toNat) := by
  have htrue : is_correct_mult A B C k Xs = true ↔
      ∀ i, i < k.toNat → residual A B C (Xs i) = 0 := by
    unfold is_correct_mult
    rw [freivaldsLoop_fst_true_iff]
    simp
  refine ⟨?_, htrue, ?_, ?_⟩
  · rw [Bool.eq_false_iff, Ne, htrue]
    push_neg
    constructor
    · rintro ⟨i, hi, hne⟩; exact ⟨i, hi, hne⟩
    · rintro ⟨i, hi, hne⟩; exact ⟨i, hi, hne⟩
  · intro i hi hfail hprev
    have := freivaldsLoop_first_fail A B C Xs k.toNat 0 i hi
      (by simpa using hfail) (by simpa using hprev)
    unfold is_correct_mult drawsUsed
    rw [this]
    exact ⟨rfl, by omega⟩
  · intro hall
    have := freivaldsLoop_of_all_zero A B C Xs k.toNat 0
      (by intro d hd; simpa using hall d hd)
    unfold is_correct_mult drawsUsed
    rw [this]
    exact ⟨rfl, by omega⟩

/-- Concrete instantiation of C3 at `n = 1`, `A = B = 1`, `C = 0`, `k = 1`,
all draws the all-ones vector. -/
theorem is_correct_mult_iteration_spec_witness :
    (is_correct_mult (n := 1) 1 1 0 1 (fun _ _ => 1) = false ↔
      ∃ i, i < (1 : ℤ).toNat ∧ residual (n := 1) 1 1 0 (fun _ => (1 : ℚ)) ≠ 0) ∧
    (is_correct_mult (n := 1) 1 1 0 1 (fun _ _ => 1) = true ↔
      ∀ i, i < (1 : ℤ).toNat → residual (n := 1) 1 1 0 (fun _ => (1 : ℚ)) = 0) ∧
    (∀ i, i < (1 : ℤ).toNat → residual (n := 1) 1 1 0 (fun _ => (1 : ℚ)) ≠ 0 →
      (∀ j, j < i → residual (n := 1) 1 1 0 (fun _ => (1 : ℚ)) = 0) →
      is_correct_mult (n := 1) 1 1 0 1 (fun _ _ => 1) = false ∧
        drawsUsed (n := 1) 1 1 0 1 (fun _ _ => 1) = i + 1) ∧
    ((∀ i, i < (1 : ℤ).toNat → residual (n := 1) 1 1 0 (fun _ => (1 : ℚ)) = 0) →
      is_correct_mult (n := 1) 1 1 0 1 (fun _ _ => 1) = true ∧
        drawsUsed (n := 1) 1 1 0 1 (fun _ _ => 1) = (1 : ℤ).toNat) :=
  is_correct_mult_iteration_spec 1 1 1 0 (fun _ _ => 1) (by decide)

/-- C8: for `0×0` matrices every residual vector is empty, so for every
`k ≥ 1` the verifier returns `True`. -/
theorem empty_matrix_returns_true (A B C : Matrix (Fin 0) (Fin 0) ℚ) (k : ℤ)
    (Xs : ℕ → Fin 0 → ℚ) (_hk : 1 ≤ k) :
    is_correct_mult A B C k Xs = true := by
  have hz : ∀ d, d < k.toNat → residual A B C (Xs d) = 0 := by
    intro d _
    funext i
    exact i.elim0
  unfold is_correct_mult
  rw [freivaldsLoop_of_all_zero A B C Xs k.toNat 0 (by simpa using hz)]

/-- Concrete instantiation of C8 at `A = B = C` the unique `0×0` matrix and
`k = 1`. -/
theorem empty_matrix_returns_true_witness :
    is_correct_mult (n := 0) 0 0 0 1 (fun _ => 0) = true :=
  empty_matrix_returns_true 0 0 0 1 (fun _ => 0) (by decide)

/-- Interpretation of a boolean draw as a rational `0`/`1` entry; the support
of `np.random.randint(0, 2)` is exactly `{0, 1}`. -/
def toVec {n : ℕ} (X : Fin n → Bool) : Fin n → ℚ :=
  fun i => if X i then 1 else 0

/-- The draws `X ∈ {0,1}^n` on which one repetition computes an all-zero
residual (the draws on which a single round fails to expose `C ≠ A·B`). -/
def zeroDraws {n : ℕ} (A B C : Matrix (Fin n) (Fin n) ℚ) :
    Finset (Fin n → Bool) :=
  Finset.univ.filter (fun X => residual A B C (toVec X) = 0)

/-- Number of draws in `{0,1}^n` whose residual is zero. -/
def zeroDrawCount {n : ℕ} (A B C : Matrix (Fin n) (Fin n) ℚ) : ℕ :=
  (zeroDraws A B C).card

theorem mem_zeroDraws {n : ℕ} (A B C : Matrix (Fin n) (Fin n) ℚ)
    (X : Fin n → Bool) :
    X ∈ zeroDraws A B C ↔ residual A B C (toVec X) = 0 := by
  simp [zeroDraws]

/-- Number of length-`k` sequences of draws in `{0,1}^n` on which
`is_correct_mult(A, B, C, k)` returns `True`. -/
def trueSeqCount {n : ℕ} (A B C : Matrix (Fin n) (Fin n) ℚ) (k : ℕ) : ℕ :=
  (Finset.univ.filter (fun f : Fin k → Fin n → Bool =>
    is_correct_mult A B C (k : ℤ)
      (fun t => if h : t < k then toVec (f ⟨t, h⟩) else 0) = true)).card

theorem flip_residual_ne {n : ℕ} (A B C : Matrix (Fin n) (Fin n) ℚ)
    {i j : Fin n} (hij : (A * B - C) i j ≠ 0) (X : Fin n → Bool)
    (hX : residual A B C (toVec X) = 0) :
    residual A B C (toVec (Function.update X j (!(X j)))) ≠ 0 := by
  set D : Matrix (Fin n) (Fin n) ℚ := A * B - C with hD
  set Y : Fin n → Bool := Function.update X j (!(X j)) with hY
  intro hflip
  rw [residual_eq_sub_mulVec, ← hD] at hX hflip
  have hXi : D.mulVec (toVec X) i = 0 := by rw [hX]; rfl
  have hYi : D.mulVec (toVec Y) i = 0 := by rw [hflip]; rfl
  have hdiff : D.mulVec (toVec Y) i - D.mulVec (toVec X) i
      = D i j * (toVec Y j - toVec X j) := by
    simp only [Matrix.mulVec, Matrix.dotProduct, ← Finset.sum_sub_distrib,
      ← mul_sub]
    refine Finset.sum_eq_single j ?_ ?_
    · intro l _ hl
      have hYl : Y l = X l := Function.update_noteq hl _ X
      simp [toVec, hYl]
    · intro hj
      exact absurd (Finset.mem_univ j) hj
  have hYj : Y j = !(X j) := Function.update_same j (!(X j)) X
  have hne : toVec Y j - toVec X j ≠ 0 := by
    cases hx : X j <;> simp [toVec, hYj, hx]
  rw [hXi, hYi, sub_zero] at hdiff
  exact hij (by
    rcases mul_eq_zero.mp hdiff.symm with h | h
    · exact h
    · exact absurd h hne)

theorem flip_involutive {n : ℕ} (j : Fin n) (X : Fin n → Bool) :
    Function.update (Function.update X j (!(X j))) j
      (!(Function.update X j (!(X j)) j)) = X := by
  funext l
  by_cases hl : l = j
  · subst hl
    simp [Function.update_same]
  · simp [Function.update_noteq hl]

theorem zeroDraws_card_le {n : ℕ} (A B C : Matrix (Fin n) (Fin n) ℚ)
    (hC : C ≠ A * B) : 2 * zeroDrawCount A B C ≤ 2 ^ n := by
  have hD : A * B - C ≠ 0 := sub_ne_zero_of_ne (Ne.symm hC)
  have hex : ∃ i j, (A * B - C) i j ≠ 0 := by
    by_contra hall
    push_neg at hall
    exact hD (Matrix.ext fun i j => hall i j)
  obtain ⟨i, j, hij⟩ := hex
  set S : Finset (Fin n → Bool) := zeroDraws A B C with hS
  have hmap : ∀ X ∈ S, Function.update X j (!(X j)) ∈ Finset.univ \ S := by
    intro X hXS
    have hX : residual A B C (toVec X) = 0 := (mem_zeroDraws A B C X).mp hXS
    refine Finset.mem_sdiff.mpr ⟨Finset.mem_univ _, ?_⟩
    intro hmem
    exact flip_residual_ne A B C hij X hX ((mem_zeroDraws A B C _).mp hmem)
  have hinj : Set.InjOn
      (fun X : Fin n → Bool => Function.update X j (!(X j)))
      (S : Set (Fin n → Bool)) := by
    intro X _ Y _ hXY
    have := congrArg (fun Z : Fin n → Bool =>
      Function.update Z j (!(Z j))) hXY
    simpa [flip_involutive] using this
  have hle : S.card ≤ (Finset.univ \ S).card :=
    Finset.card_le_card_of_injOn _ hmap hinj
  have hcardU : (Finset.univ : Finset (Fin n → Bool)).card = 2 ^ n := by
    simp [Finset.card_univ]
  have hsdiff : (Finset.univ \ S).card = 2 ^ n - S.card := by
    rw [Finset.card_sdiff (Finset.subset_univ S), hcardU]
  have hSle : S.card ≤ 2 ^ n := by
    calc S.card ≤ (Finset.univ : Finset (Fin n → Bool)).card :=
          Finset.card_le_card (Finset.subset_univ S)
      _ = 2 ^ n := hcardU
  rw [hsdiff] at hle
  unfold zeroDrawCount
  rw [← hS]
  omega

theorem trueSeqCount_eq_pow {n : ℕ} (A B C : Matrix (Fin n) (Fin n) ℚ)
    (k : ℕ) : trueSeqCount A B C k = zeroDrawCount A B C ^ k := by
  unfold trueSeqCount zeroDrawCount
  have hset : (Finset.univ.filter (fun f : Fin k → Fin n → Bool =>
      is_correct_mult A B C (k : ℤ)
        (fun t => if h : t < k then toVec (f ⟨t, h⟩) else 0) = true))
      = Fintype.piFinset (fun _ : Fin k => zeroDraws A B C) := by
    ext f
    rw [Finset.mem_filter, Fintype.mem_piFinset]
    simp only [Finset.mem_univ, true_and]
    unfold is_correct_mult
    rw [freivaldsLoop_fst_true_iff]
    constructor
    · intro hall t
      have := hall t.val (by simpa using t.isLt)
      rw [mem_zeroDraws]
      simpa [t.isLt] using this
    · intro hall d hd
      have hd' : d < k := by simpa using hd
      have := (mem_zeroDraws A B C _).mp (hall ⟨d, hd'⟩)
      simpa [hd'] using this
  rw [hset, Fintype.card_piFinset_const]

/-- C2: bounded one-sided error.  If `C ≠ A·B` then at most half of the `2^n`
draws in `{0,1}^n` give a zero residual, and at most a `2^(-k)` fraction of
the `2^(n·k)` length-`k` draw sequences make `is_correct_mult(A, B, C, k)`
return `True`. -/
theorem freivalds_bounded_error {n : ℕ} (A B C : Matrix (Fin n) (Fin n) ℚ)
    (hC : C ≠ A * B) :
    2 * zeroDrawCount A B C ≤ 2 ^ n ∧
    ∀ k : ℕ, 2 ^ k * trueSeqCount A B C k ≤ 2 ^ (n * k) := by
  have h1 := zeroDraws_card_le A B C hC
  refine ⟨h1, fun k => ?_⟩
  rw [trueSeqCount_eq_pow]
  calc 2 ^ k * zeroDrawCount A B C ^ k
      = (2 * zeroDrawCount A B C) ^ k := (mul_pow 2 _ k).symm
    _ ≤ (2 ^ n) ^ k := Nat.pow_le_pow_left h1 k
    _ = 2 ^ (n * k) := (pow_mul 2 n k).symm

/-- Concrete instantiation of C2 at `n = 1`, `A = B = 1`, `C = 0`. -/
theorem freivalds_bounded_error_witness :
    2 * zeroDrawCount (n := 1) 1 1 0 ≤ 2 ^ 1 ∧
    ∀ k : ℕ, 2 ^ k * trueSeqCount (n := 1) 1 1 0 k ≤ 2 ^ (1 * k) :=
  freivalds_bounded_error 1 1 0 (by
    rw [mul_one]
    intro h
    have h00 := congrFun (congrFun h 0) 0
    simp [Matrix.one_apply] at h00)

/-- The random data consumed by one call of `make_test(n)`: the entries drawn
for `A` and `B` by `np.random.random((n, n))`, the two cell indices drawn by
`i, j = np.random.randint(0, n, 2)`, and the perturbation drawn by
`np.random.random()`.  The drawn indices always satisfy `i < n` and `j < n`;
they are modelled as plain naturals and theorems carry those bounds as
hypotheses.  The perturbation is drawn from the half-open interval `[0, 1)`. -/
structure TestEntropy (n : ℕ) where
  a : Matrix (Fin n) (Fin n) ℚ
  b : Matrix (Fin n) (Fin n) ℚ
  i : ℕ
  j : ℕ
  eps : ℚ

/-- Embedding of `make_test(n)`: computes `correct = A @ B`, copies it to `incorrect`, adds
the drawn perturbation to cell `(i, j)` and returns `(A, B, incorrect)`. -/
def make_test (n : ℕ) (e : TestEntropy n) :
    Matrix (Fin n) (Fin n) ℚ × Matrix (Fin n) (Fin n) ℚ ×
      Matrix (Fin n) (Fin n) ℚ :=
  let A := e.a
  let B := e.b
  let correct := A * B
  let incorrect := Matrix.of fun r c =>
    if r.val = e.i ∧ c.val = e.j then correct r c + e.eps else correct r c
  (A, B, incorrect)

/-- C4 (amended): whenever the drawn perturbation is nonzero — an almost-sure
event for a draw from `[0, 1)` — the returned `incorrect` matrix differs from
the true product `A·B` in exactly the drawn cell `(i, j)`, that difference
being the strictly positive perturbation, and agrees with `A·B` everywhere
else. -/
theorem make_test_postcondition {n : ℕ} (e : TestEntropy n)
    (hi : e.i < n) (hj : e.j < n) (heps : 0 < e.eps) :
    (make_test n e).2.2 ⟨e.i, hi⟩ ⟨e.j, hj⟩
        - ((make_test n e).1 * (make_test n e).2.1) ⟨e.i, hi⟩ ⟨e.j, hj⟩
        = e.eps ∧
    (make_test n e).2.2 ⟨e.i, hi⟩ ⟨e.j, hj⟩
        ≠ ((make_test n e).1 * (make_test n e).2.1) ⟨e.i, hi⟩ ⟨e.j, hj⟩ ∧
    ∀ r c : Fin n, ¬(r.val = e.i ∧ c.val = e.j) →
      (make_test n e).2.2 r c = ((make_test n e).1 * (make_test n e).2.1) r c
    := by
  have hfst : (make_test n e).1 = e.a := rfl
  have hsnd : (make_test n e).2.1 = e.b := rfl
  have happ : ∀ r c : Fin n, (make_test n e).2.2 r c
      = if r.val = e.i ∧ c.val = e.j then (e.a * e.b) r c + e.eps
        else (e.a * e.b) r c := fun r c => rfl
  rw [hfst, hsnd]
  refine ⟨?_, ?_, ?_⟩
  · rw [happ, if_pos ⟨rfl, rfl⟩]
    ring
  · rw [happ, if_pos ⟨rfl, rfl⟩]
    intro h
    have heq : e.eps = 0 := by linarith
    exact absurd heq (ne_of_gt heps)
  · intro r c hrc
    rw [happ, if_neg hrc]

/-- Concrete instantiation of C4 (amended) at `n = 1`, `A = B = 1`,
`i = j = 0`, perturbation `1/2`. -/
theorem make_test_postcondition_witness :
    (make_test 1 ⟨1, 1, 0, 0, 1 / 2⟩).2.2 ⟨0, Nat.one_pos⟩ ⟨0, Nat.one_pos⟩
        - ((make_test 1 ⟨1, 1, 0, 0, 1 / 2⟩).1
            * (make_test 1 ⟨1, 1, 0, 0, 1 / 2⟩).2.1) ⟨0, Nat.one_pos⟩
            ⟨0, Nat.one_pos⟩
        = 1 / 2 ∧
    (make_test 1 ⟨1, 1, 0, 0, 1 / 2⟩).2.2 ⟨0, Nat.one_pos⟩ ⟨0, Nat.one_pos⟩
        ≠ ((make_test 1 ⟨1, 1, 0, 0, 1 / 2⟩).1
            * (make_test 1 ⟨1, 1, 0, 0, 1 / 2⟩).2.1) ⟨0, Nat.one_pos⟩
            ⟨0, Nat.one_pos⟩ ∧
    ∀ r c : Fin 1, ¬(r.val = 0 ∧ c.val = 0) →
      (make_test 1 ⟨1, 1, 0, 0, 1 / 2⟩).2.2 r c
        = ((make_test 1 ⟨1, 1, 0, 0, 1 / 2⟩).1
            * (make_test 1 ⟨1, 1, 0, 0, 1 / 2⟩).2.1) r c :=
  make_test_postcondition ⟨1, 1, 0, 0, 1 / 2⟩ Nat.one_pos Nat.one_pos
    (by norm_num)

/-- C4 counterexample: `np.random.random()` draws from `[0, 1)`, so the
perturbation can be `0`, in which case `incorrect` equals the true product
`A·B` exactly — it differs in no cell at all, and no cell's difference is
strictly positive. -/
theorem make_test_zero_perturbation_counterexample :
    (make_test 1 ⟨1, 1, 0, 0, 0⟩).2.2
      = (make_test 1 ⟨1, 1, 0, 0, 0⟩).1 * (make_test 1 ⟨1, 1, 0, 0, 0⟩).2.1
    := by
  unfold make_test
  ext r c
  simp only [Matrix.of_apply]
  split
  · rw [add_zero]
  · rfl

/-- The error NumPy raises when operand shapes are incompatible
(a `ValueError`; the spec calls it `DimensionMismatch`). -/
inductive ShapeErr where
  | mismatch
deriving DecidableEq

/-- A NumPy 2-D array of rationals with explicit shape, for the claims about
mismatched dimensions. -/
structure PyMat where
  rows : ℕ
  cols : ℕ
  entry : Fin rows → Fin cols → ℚ

/-- A NumPy 1-D array of rationals with explicit length. -/
structure PyVec where
  len : ℕ
  entry : Fin len → ℚ

/-- NumPy `M @ v` for 2-D `M` and 1-D `v`: defined when `M.shape[1]` equals
`len(v)`, yielding a vector of length `M.shape[0]`; otherwise it raises. -/
def matVec (M : PyMat) (v : PyVec) : Except ShapeErr PyVec :=
  if h : M.cols = v.len then
    Except.ok ⟨M.rows, fun r => ∑ c, M.entry r c * v.entry (Fin.cast h c)⟩
  else Except.error ShapeErr.mismatch

/-- NumPy subtraction of two 1-D arrays with broadcasting: shapes `(a,)` and
`(b,)` are compatible when `a = b`, `a = 1` or `b = 1`; a length-1 operand is
broadcast across the other. -/
def vecSub (u v : PyVec) : Except ShapeErr PyVec :=
  if h : u.len = v.len then
    Except.ok ⟨u.len, fun r => u.entry r - v.entry (Fin.cast h r)⟩
  else if hu : u.len = 1 then
    Except.ok ⟨v.len, fun _r => u.entry ⟨0, by omega⟩ - v.entry _r⟩
  else if hv : v.len = 1 then
    Except.ok ⟨u.len, fun r => u.entry r - v.entry ⟨0, by omega⟩⟩
  else Except.error ShapeErr.mismatch

/-- NumPy `res.any()` for a 1-D array. -/
def vecAny (v : PyVec) : Bool :=
  decide (∃ r, v.entry r ≠ 0)

/-- The loop of `is_correct_mult` in the shaped model.  Each iteration draws
`X = np.random.randint(0, 2, (n,))` with `n = A.shape[0]` and evaluates
`A @ (B @ X) - (C @ X)` under NumPy's shape rules, propagating the first
shape error raised, exactly in Python's evaluation order. -/
def shapedLoop (A B C : PyMat) (Xs : ℕ → ℕ → ℚ) : ℕ → ℕ → Except ShapeErr Bool
  | _, 0 => Except.ok true
  | t, k + 1 =>
    let X : PyVec := ⟨A.rows, fun r => Xs t r.val⟩
    match matVec B X with
    | Except.error e => Except.error e
    | Except.ok bx =>
      match matVec A bx with
      | Except.error e => Except.error e
      | Except.ok abx =>
        match matVec C X with
        | Except.error e => Except.error e
        | Except.ok cx =>
          match vecSub abx cx with
          | Except.error e => Except.error e
          | Except.ok res =>
            if vecAny res then Except.ok false
            else shapedLoop A B C Xs (t + 1) k

/-- Embedding of `is_correct_mult(A, B, C, k)` in the shaped model: either the boolean
verdict of the Python function or the NumPy shape error the call raises. -/
def is_correct_mult_shaped (A B C : PyMat) (k : ℤ) (Xs : ℕ → ℕ → ℚ) :
    Except ShapeErr Bool :=
  shapedLoop A B C Xs 0 k.toNat

/-- C6 counterexample: at `k = 0 < 1` on well-formed `1×1` inputs the call
returns the boolean verdict `True` — `range(0)` is empty, so no error of any
kind is signaled, contradicting the claimed `InvalidRepetitionCount`. -/
theorem invalid_k_counterexample :
    is_correct_mult_shaped ⟨1, 1, fun _ _ => 1⟩ ⟨1, 1, fun _ _ => 1⟩
      ⟨1, 1, fun _ _ => 1⟩ 0 (fun _ _ => 1) = Except.ok true := rfl

/-- C6 (amended): for every `k < 1` the loop body of `is_correct_mult` never
executes — `range(k)` is empty — so the call returns `True` and signals no
error, whatever the matrices are. -/
theorem nonpositive_k_returns_true (A B C : PyMat) (k : ℤ)
    (Xs : ℕ → ℕ → ℚ) (hk : k < 1) :
    is_correct_mult_shaped A B C k Xs = Except.ok true := by
  unfold is_correct_mult_shaped
  rw [Int.toNat_of_nonpos (by omega)]
  rfl

/-- Concrete instantiation of C6 (amended) at `k = -3`. -/
theorem nonpositive_k_returns_true_witness :
    is_correct_mult_shaped ⟨1, 1, fun _ _ => 1⟩ ⟨1, 1, fun _ _ => 1⟩
      ⟨1, 1, fun _ _ => 1⟩ (-3) (fun _ _ => 1) = Except.ok true :=
  nonpositive_k_returns_true _ _ _ (-3) _ (by decide)

/-- C7 counterexample: `A`, `B` square `2×2` but `C` of shape `1×2` — the
three matrices share no common square dimension, yet the call completes with
a boolean verdict instead of signaling an error: `C @ X` has length 1 and
NumPy broadcasting accepts subtracting a length-1 array from a length-2
array. -/
theorem dimension_mismatch_counterexample :
    (¬ ((⟨1, 2, fun _ _ => 0⟩ : PyMat).rows
        = (⟨1, 2, fun _ _ => 0⟩ : PyMat).cols)) ∧
    is_correct_mult_shaped ⟨2, 2, fun _ _ => 0⟩ ⟨2, 2, fun _ _ => 0⟩
      ⟨1, 2, fun _ _ => 0⟩ 1 (fun _ _ => 0) = Except.ok true := by
  refine ⟨by decide, ?_⟩
  unfold is_correct_mult_shaped
  norm_num [shapedLoop, matVec, vecSub, vecAny]

/-- C7 (amended): when `A`, `B`, `C` are each square but do not all have the
same dimension and `k ≥ 1`, the first iteration's residual computation raises
the shape error, which aborts the call. -/
theorem square_dimension_mismatch_errors (A B C : PyMat) (k : ℤ)
    (Xs : ℕ → ℕ → ℚ) (hA : A.rows = A.cols) (hB : B.rows = B.cols)
    (hC : C.rows = C.cols) (hmix : ¬(B.rows = A.rows ∧ C.rows = A.rows))
    (hk : 1 ≤ k) :
    is_correct_mult_shaped A B C k Xs = Except.error ShapeErr.mismatch := by
  obtain ⟨m, hm⟩ : ∃ m, k.toNat = m + 1 := ⟨k.toNat - 1, by omega⟩
  unfold is_correct_mult_shaped
  rw [hm, shapedLoop]
  by_cases hBn : B.rows = A.rows
  · have hCn : C.rows ≠ A.rows := fun h => hmix ⟨hBn, h⟩
    have hBX : matVec B ⟨A.rows, fun r => Xs 0 r.val⟩
        = Except.ok ⟨B.rows, fun r =>
            ∑ c, B.entry r c * Xs 0 (Fin.cast (hB.symm.trans hBn) c).val⟩ := by
      rw [matVec, dif_pos (hB.symm.trans hBn)]
    have hABX : matVec A ⟨B.rows, fun r =>
        ∑ c, B.entry r c * Xs 0 (Fin.cast (hB.symm.trans hBn) c).val⟩
        = Except.ok ⟨A.rows, fun r =>
            ∑ c, A.entry r c * (fun r' =>
              ∑ c', B.entry r' c' * Xs 0 (Fin.cast (hB.symm.trans hBn) c').val)
              (Fin.cast (hA.symm.trans hBn.symm) c)⟩ := by
      rw [matVec, dif_pos (hA.symm.trans hBn.symm)]
    have hCX : matVec C ⟨A.rows, fun r => Xs 0 r.val⟩
        = Except.error ShapeErr.mismatch := by
      rw [matVec, dif_neg]
      show ¬ C.cols = A.rows
      rw [← hC]
      exact hCn
    simp only [hBX, hABX, hCX]
  · have hBX : matVec B ⟨A.rows, fun r => Xs 0 r.val⟩
        = Except.error ShapeErr.mismatch := by
      rw [matVec, dif_neg]
      show ¬ B.cols = A.rows
      rw [← hB]
      exact hBn
    simp only [hBX]

/-- Concrete instantiation of C7 (amended): `A`, `C` of dimension 1, `B` of
dimension 2, `k = 1`. -/
theorem square_dimension_mismatch_errors_witness :
    is_correct_mult_shaped ⟨1, 1, fun _ _ => 1⟩ ⟨2, 2, fun _ _ => 1⟩
      ⟨1, 1, fun _ _ => 1⟩ 1 (fun _ _ => 1) = Except.error ShapeErr.mismatch :=
  square_dimension_mismatch_errors ⟨1, 1, fun _ _ => 1⟩ ⟨2, 2, fun _ _ => 1⟩
    ⟨1, 1, fun _ _ => 1⟩ 1 (fun _ _ => 1) rfl rfl rfl (by decide) (by decide)

/-- Modelled from the spec: the numeric policy of §4.1, absent from the
source, under which "any entry of the residual is nonzero" is decided against
an explicit zero-tolerance `tol` — an entry counts as nonzero only when its
magnitude exceeds `tol`. -/
def resAnyWithTol {n : ℕ} (tol : ℚ) (v : Fin n → ℚ) : Bool :=
  decide (∃ i, tol < |v i|)

/-- A claimed product whose single entry exceeds the true product `1·1` by
the tiny amount `10⁻³⁰`. -/
def tinyOffC : Matrix (Fin 1) (Fin 1) ℚ :=
  Matrix.of fun _ _ => 1 + 1 / 10 ^ 30

/-- C5 divergence: the source's `res.any()` compares residual entries with
zero exactly, not against a tolerance.  On `A = B = [[1]]`,
`C = [[1 + 10⁻³⁰]]`, `k = 1` and draw `X = [1]`, the residual entry is
`-10⁻³⁰`, so `is_correct_mult` returns `False`, whereas the spec's
tolerance policy (any `tol ≥ 10⁻³⁰`, e.g. `10⁻¹⁰`) treats the residual as
zero. -/
theorem exact_comparison_vs_tolerance :
    residual (n := 1) 1 1 tinyOffC (fun _ => 1) = (fun _ => -(1 / 10 ^ 30)) ∧
    is_correct_mult (n := 1) 1 1 tinyOffC 1 (fun _ _ => 1) = false ∧
    resAnyWithTol (1 / 10 ^ 10)
      (residual (n := 1) 1 1 tinyOffC (fun _ => 1)) = false := by
  have hres : residual (n := 1) 1 1 tinyOffC (fun _ => 1)
      = (fun _ => -(1 / 10 ^ 30)) := by
    funext r
    have hr : r = 0 := Subsingleton.elim r 0
    subst hr
    simp only [residual, Matrix.mulVec, Matrix.dotProduct, tinyOffC,
      Matrix.of_apply, Fin.sum_univ_one, Matrix.one_apply_eq, Pi.sub_apply]
    norm_num
  refine ⟨hres, ?_, ?_⟩
  · have hne : residual (n := 1) 1 1 tinyOffC (fun _ => 1) ≠ 0 := by
      rw [hres]
      intro h
      have h0 := congrFun h 0
      norm_num at h0
    unfold is_correct_mult
    rw [show (1 : ℤ).toNat = 1 from rfl]
    rw [freivaldsLoop, (resAny_eq_true _).2 (by simpa using hne), if_pos rfl]
  · rw [hres]
    unfold resAnyWithTol
    rw [decide_eq_false_iff_not]
    intro hex
    obtain ⟨i, hlt⟩ := hex
    rw [abs_neg, abs_of_pos (by norm_num)] at hlt
    norm_num at hlt

/-- One trial of the experiment at dimension `n`: generate one instance with
`make_test(n)` from entropy `e`, call the verifier on it with repetition count
`k` and draw stream `Xs`, and record whether it returned `False` (`not
is_correct_mult(...)` in the source's `1 if not ... else 0`). -/
def trialDetects (n : ℕ) (e : TestEntropy n) (Xs : ℕ → Fin n → ℚ) (k : ℤ) :
    Bool :=
  let inst := make_test n e
  !(is_correct_mult inst.1 inst.2.1 inst.2.2 k Xs)

/-- Number of the `trials` trials at dimension `n` whose verifier call with
repetition count `k` returned `False`; `ent t` is the instance entropy and
`xs t` the verifier's draw stream of trial `t`. -/
def detectCount (n trials : ℕ) (ent : ℕ → TestEntropy n)
    (xs : ℕ → ℕ → Fin n → ℚ) (k : ℤ) : ℕ :=
  ((List.range trials).filter (fun t => trialDetects n (ent t) (xs t) k)).length

/-- The driver's `good_counts` list: for each `n` in `range(lo, hi+1)`, the
number of detections by the `k = 1` verifier call out of `trials` trials. -/
def good_counts (lo hi trials : ℕ) (ent : (n : ℕ) → ℕ → TestEntropy n)
    (xs1 : (n : ℕ) → ℕ → ℕ → Fin n → ℚ) : List ℕ :=
  (List.range (hi + 1 - lo)).map (fun d =>
    detectCount (lo + d) trials (ent (lo + d)) (xs1 (lo + d)) 1)

/-- The driver's `good_counts_with_k2` list: the second verifier call of each
trial, on the same `make_test` instance (same `ent`) but with `k = 2` and its
own fresh draw stream `xs2`. -/
def good_counts_with_k2 (lo hi trials : ℕ)
    (ent : (n : ℕ) → ℕ → TestEntropy n)
    (xs2 : (n : ℕ) → ℕ → ℕ → Fin n → ℚ) : List ℕ :=
  (List.range (hi + 1 - lo)).map (fun d =>
    detectCount (lo + d) trials (ent (lo + d)) (xs2 (lo + d)) 2)

/-- C9: the sweep produces two sequences of length `hi − lo + 1`; every entry
lies between `0` and `trials`; and the entry at offset `d` (dimension
`lo + d`) counts exactly the trials whose `is_correct_mult` invocation — with
`k = 1` for the first sequence and `k = 2` for the second, both on the same
`make_test` instance of that trial — returned `False`. -/
theorem driver_output_spec (lo hi trials : ℕ)
    (ent : (n : ℕ) → ℕ → TestEntropy n)
    (xs1 xs2 : (n : ℕ) → ℕ → ℕ → Fin n → ℚ) (h : lo ≤ hi) :
    (good_counts lo hi trials ent xs1).length = hi - lo + 1 ∧
    (good_counts_with_k2 lo hi trials ent xs2).length = hi - lo + 1 ∧
    (∀ x ∈ good_counts lo hi trials ent xs1, x ≤ trials) ∧
    (∀ x ∈ good_counts_with_k2 lo hi trials ent xs2, x ≤ trials) ∧
    (∀ d, d < hi - lo + 1 →
      (good_counts lo hi trials ent xs1)[d]? = some
        (((List.range trials).filter (fun t =>
          decide (is_correct_mult (make_test (lo + d) (ent (lo + d) t)).1
            (make_test (lo + d) (ent (lo + d) t)).2.1
            (make_test (lo + d) (ent (lo + d) t)).2.2 1
            (xs1 (lo + d) t) = false))).length) ∧
      (good_counts_with_k2 lo hi trials ent xs2)[d]? = some
        (((List.range trials).filter (fun t =>
          decide (is_correct_mult (make_test (lo + d) (ent (lo + d) t)).1
            (make_test (lo + d) (ent (lo + d) t)).2.1
            (make_test (lo + d) (ent (lo + d) t)).2.2 2
            (xs2 (lo + d) t) = false))).length)) := by
  have hlen1 : (good_counts lo hi trials ent xs1).length = hi - lo + 1 := by
    rw [good_counts, List.length_map, List.length_range]
    omega
  have hlen2 : (good_counts_with_k2 lo hi trials ent xs2).length
      = hi - lo + 1 := by
    rw [good_counts_with_k2, List.length_map, List.length_range]
    omega
  have hbound : ∀ (n : ℕ) (e : ℕ → TestEntropy n) (xs : ℕ → ℕ → Fin n → ℚ)
      (k : ℤ), detectCount n trials e xs k ≤ trials := by
    intro n e xs k
    have hf := List.length_filter_le
      (fun t => trialDetects n (e t) (xs t) k) (List.range trials)
    rw [detectCount]
    simpa using hf
  have hpred : ∀ (n : ℕ) (e : TestEntropy n) (xs : ℕ → Fin n → ℚ) (k : ℤ),
      trialDetects n e xs k
        = decide (is_correct_mult (make_test n e).1 (make_test n e).2.1
            (make_test n e).2.2 k xs = false) := by
    intro n e xs k
    rw [trialDetects]
    cases hb : is_correct_mult (make_test n e).1 (make_test n e).2.1
        (make_test n e).2.2 k xs <;> simp [hb]
  refine ⟨hlen1, hlen2, ?_, ?_, ?_⟩
  · intro x hx
    rw [good_counts, List.mem_map] at hx
    obtain ⟨d, _, hdx⟩ := hx
    rw [← hdx]
    exact hbound _ _ _ _
  · intro x hx
    rw [good_counts_with_k2, List.mem_map] at hx
    obtain ⟨d, _, hdx⟩ := hx
    rw [← hdx]
    exact hbound _ _ _ _
  · intro d hd
    constructor
    · rw [good_counts, List.getElem?_map, List.getElem?_range (by omega)]
      rw [Option.map_some']
      congr 1
      rw [detectCount]
      congr 1
      refine List.filter_congr ?_
      intro t _
      exact hpred _ _ _ _
    · rw [good_counts_with_k2, List.getElem?_map,
        List.getElem?_range (by omega)]
      rw [Option.map_some']
      congr 1
      rw [detectCount]
      congr 1
      refine List.filter_congr ?_
      intro t _
      exact hpred _ _ _ _

/-- Concrete instantiation of C9 at `lo = 2`, `hi = 3`, one trial per
dimension, with all entropy zero. -/
theorem driver_output_spec_witness :
    (good_counts 2 3 1 (fun _ _ => ⟨0, 0, 0, 0, 0⟩) (fun _ _ _ _ => 0)).length
        = 3 - 2 + 1 ∧
    (good_counts_with_k2 2 3 1 (fun _ _ => ⟨0, 0, 0, 0, 0⟩)
        (fun _ _ _ _ => 0)).length = 3 - 2 + 1 ∧
    (∀ x ∈ good_counts 2 3 1 (fun _ _ => ⟨0, 0, 0, 0, 0⟩) (fun _ _ _ _ => 0),
      x ≤ 1) ∧
    (∀ x ∈ good_counts_with_k2 2 3 1 (fun _ _ => ⟨0, 0, 0, 0, 0⟩)
        (fun _ _ _ _ => 0), x ≤ 1) ∧
    (∀ d, d < 3 - 2 + 1 →
      (good_counts 2 3 1 (fun _ _ => ⟨0, 0, 0, 0, 0⟩)
          (fun _ _ _ _ => 0))[d]? = some
        (((List.range 1).filter (fun t =>
          decide (is_correct_mult
            (make_test (2 + d) ((fun _ _ => ⟨0, 0, 0, 0, 0⟩ :
              (n : ℕ) → ℕ → TestEntropy n) (2 + d) t)).1
            (make_test (2 + d) ((fun _ _ => ⟨0, 0, 0, 0, 0⟩ :
              (n : ℕ) → ℕ → TestEntropy n) (2 + d) t)).2.1
            (make_test (2 + d) ((fun _ _ => ⟨0, 0, 0, 0, 0⟩ :
              (n : ℕ) → ℕ → TestEntropy n) (2 + d) t)).2.2 1
            ((fun _ _ _ _ => 0 : (n : ℕ) → ℕ → ℕ → Fin n → ℚ) (2 + d) t)
            = false))).length) ∧
      (good_counts_with_k2 2 3 1 (fun _ _ => ⟨0, 0, 0, 0, 0⟩)
          (fun _ _ _ _ => 0))[d]? = some
        (((List.range 1).filter (fun t =>
          decide (is_correct_mult
            (make_test (2 + d) ((fun _ _ => ⟨0, 0, 0, 0, 0⟩ :
              (n : ℕ) → ℕ → TestEntropy n) (2 + d) t)).1
            (make_test (2 + d) ((fun _ _ => ⟨0, 0, 0, 0, 0⟩ :
              (n : ℕ) → ℕ → TestEntropy n) (2 + d) t)).2.1
            (make_test (2 + d) ((fun _ _ => ⟨0, 0, 0, 0, 0⟩ :
              (n : ℕ) → ℕ → TestEntropy n) (2 + d) t)).2.2 2
            ((fun _ _ _ _ => 0 : (n : ℕ) → ℕ → ℕ → Fin n → ℚ) (2 + d) t)
            = false))).length)) :=
  driver_output_spec 2 3 1 (fun _ _ => ⟨0, 0, 0, 0, 0⟩) (fun _ _ _ _ => 0)
    (fun _ _ _ _ => 0) (by decide)

end Freivalds
